import Mathlib

/-!
Verification of the Access Token Verifier of `simple-image-service`
(`app/security.py` — the try-all-keys variant — and `app/auth/cloudflare.py`).

The Python code is shallowly embedded: each function becomes a pure Lean
function; the process-wide JWKS cache (`_certs_cache`) becomes an explicit
`Cache` value threaded through the operations; the single outbound HTTP
request performed by `_get_public_keys` becomes a `FetchEnv` parameter
describing the response the network would have produced (or a network
failure); raised exceptions become explicit result constructors
(`httpError` for a `fastapi.HTTPException`, `uncaught` for any other
exception propagating out of the function).
-/

/-! ## String helpers mirroring the Python string operations used -/

/-- Python `s.split(sep)` for a one-character separator, on the character
list of the string: `"".split(",") = [""]`, separators at the ends produce
empty fragments. -/
def splitOnChar (sep : Char) : List Char → List (List Char)
  | [] => [[]]
  | c :: rest =>
    let r := splitOnChar sep rest
    if c = sep then [] :: r
    else
      match r with
      | [] => [[c]]
      | g :: gs => (c :: g) :: gs

/-- Python `s.strip()`: drop whitespace from both ends. -/
def stripChars (l : List Char) : List Char :=
  ((l.dropWhile Char.isWhitespace).reverse.dropWhile Char.isWhitespace).reverse

/-- Does `pat` start `l`? (helper for the substring test). -/
def leadsList : List Char → List Char → Bool
  | [], _ => true
  | _ :: _, [] => false
  | p :: ps, c :: cs => p = c && leadsList ps cs

/-- Python `pat in s`: `pat` occurs as a contiguous substring of `l`. -/
def occursIn (pat : List Char) : List Char → Bool
  | [] => leadsList pat []
  | c :: cs => leadsList pat (c :: cs) || occursIn pat cs

/-- Digit run to a number; `none` on an empty run or a non-digit. -/
def digitsToNat : List Char → Option Nat
  | [] => none
  | ds => digitsToNatAux ds 0
where
  digitsToNatAux : List Char → Nat → Option Nat
    | [], acc => some acc
    | c :: cs, acc =>
      if c.isDigit then digitsToNatAux cs (acc * 10 + (c.toNat - 48)) else none

/-- Python `int(s)` on an already-stripped string: optional sign followed by
a non-empty digit run; anything else raises (`none` here). -/
def pyInt (l : List Char) : Option Int :=
  match l with
  | '-' :: ds => (digitsToNat ds).map (fun n => -(n : Int))
  | '+' :: ds => (digitsToNat ds).map (fun n => (n : Int))
  | ds => (digitsToNat ds).map (fun n => (n : Int))

/-! ## `_parse_max_age` (security.py lines 15-24) -/

/-- One iteration of the `for part in cache_control.split(",")` loop:
if `"max-age" in part`, attempt `int(part.split("=")[1].strip())`; a raised
`IndexError`/`ValueError` is swallowed by the bare `except: pass` and the
loop continues with the remaining parts. -/
def parse_max_age_loop : List (List Char) → Option Int
  | [] => none
  | part :: rest =>
    if occursIn "max-age".data part then
      match (splitOnChar '=' part).get? 1 with
      | some v =>
        match pyInt (stripChars v) with
        | some n => some n
        | none => parse_max_age_loop rest
      | none => parse_max_age_loop rest
    else parse_max_age_loop rest

/-- `_parse_max_age(cache_control)`: `None` for a falsy (empty) header,
otherwise scan the comma-separated parts. -/
def parse_max_age (cacheControl : String) : Option Int :=
  if cacheControl.data = [] then none
  else parse_max_age_loop (splitOnChar ',' cacheControl.data)

/-! ## Data model: signing keys, JWKs, HTTP responses, the cache -/

/-- A parsed RSA public key, identified by its key material (abstracted to a
number: two keys verify the same signatures exactly when they are equal). -/
abbrev SigningKey := Nat

/-- One entry of the fetched JWKS document: either it parses into an RSA
public key via `jwt.algorithms.RSAAlgorithm.from_jwk`, or that call raises. -/
inductive Jwk
  | rsa (key : SigningKey)
  | bad
deriving DecidableEq

/-- `RSAAlgorithm.from_jwk(json.dumps(key_dict))`: returns the key or raises. -/
def from_jwk : Jwk → Except Unit SigningKey
  | .rsa k => .ok k
  | .bad => .error ()

/-- The `for key_dict in jwk_set.get("keys", []):` loop of
`_get_public_keys`: each entry is converted and appended; a conversion
failure raises out of the whole function (the loop is outside the
`try`/`except`), so the first bad entry aborts everything after it. -/
def parseJwks : List Jwk → Except Unit (List SigningKey)
  | [] => .ok []
  | j :: rest =>
    match from_jwk j with
    | .error e => .error e
    | .ok k =>
      match parseJwks rest with
      | .error e => .error e
      | .ok ks => .ok (k :: ks)

/-- The decoded JSON body `{"keys": [...]}`; the `"keys"` field may be
absent (`jwk_set.get("keys", [])` then yields `[]`). -/
structure JwkDoc where
  keys : Option (List Jwk)
deriving DecidableEq

/-- The HTTP response observed by `requests.get(certs_url, timeout=5)`:
its status code, its body (`none` when `r.json()` raises on malformed
JSON), and the optional `Cache-Control` header. -/
structure HttpResponse where
  status : Nat
  body : Option JwkDoc
  cacheControl : Option String
deriving DecidableEq

/-- What the network would deliver for the single GET a refresh performs:
`none` models a network error or timeout (`requests.get` raises), plus the
value of `time.time()` at the start of the call. -/
structure FetchEnv where
  now : Int
  response : Option HttpResponse

/-- The process-wide `_certs_cache` dict: URL → `(expires, keys)`. -/
def Cache := String → Option (Int × List SigningKey)

/-- The empty cache (module load state). -/
def emptyCache : Cache := fun _ => none

/-- `_certs_cache[certs_url] = (expires, public_keys)`. -/
def cacheInsert (cache : Cache) (url : String) (e : Int × List SigningKey) : Cache :=
  fun u => if u = url then some e else cache u

/-- Outcome of `_get_public_keys`: the key list, a raised
`HTTPException(status, detail)`, or any other uncaught exception. -/
inductive KeysResult
  | ok (keys : List SigningKey)
  | httpError (status : Nat) (detail : String)
  | uncaught
deriving DecidableEq

/-- Result of one `_get_public_keys` call: its outcome, the cache it leaves
behind, and how many network fetches it issued. -/
structure KeysOut where
  result : KeysResult
  cache : Cache
  fetchCount : Nat

/-- The Cloudflare default TTL used when no `max-age` parses. -/
def defaultTtl : Int := 14400

/-- The TTL `_get_public_keys` derives from the `Cache-Control` header
(line 64: `max_age if max_age is not None else 14400`). -/
def ttlOf (cacheControl : String) : Int :=
  (parse_max_age cacheControl).getD defaultTtl

/-- The slow path of `_get_public_keys` (lines 45-67): one GET, then JSON
and JWK parsing, the empty-key-list check, and the cache write. -/
def fetchKeys (cache : Cache) (url : String) (env : FetchEnv) : KeysOut :=
  match env.response with
  | none => ⟨.httpError 500 "Internal Server Error", cache, 1⟩
  | some r =>
    if 400 ≤ r.status then ⟨.httpError 500 "Internal Server Error", cache, 1⟩
    else
      match r.body with
      | none => ⟨.httpError 500 "Internal Server Error", cache, 1⟩
      | some doc =>
        let maxAge := parse_max_age (r.cacheControl.getD "")
        match parseJwks (doc.keys.getD []) with
        | .error _ => ⟨.uncaught, cache, 1⟩
        | .ok publicKeys =>
          if publicKeys = [] then ⟨.httpError 500 "Internal Server Error", cache, 1⟩
          else
            let expires := env.now + maxAge.getD defaultTtl
            ⟨.ok publicKeys, cacheInsert cache url (expires, publicKeys), 1⟩

/-- `_get_public_keys(certs_url)` (lines 28-67): serve a fresh cache entry
without any fetch, otherwise refresh. -/
def get_public_keys (cache : Cache) (url : String) (env : FetchEnv) : KeysOut :=
  match cache url with
  | some (expires, keys) =>
    if env.now < expires then ⟨.ok keys, cache, 0⟩
    else fetchKeys cache url env
  | none => fetchKeys cache url env

/-! ## Tokens and `jwt.decode` -/

/-- The claims carried by a token's payload. -/
structure Claims where
  email : Option String
  aud : String
  exp : Option Int
  nbf : Option Int
deriving DecidableEq

/-- A `CF_Authorization` cookie value: whether it is a structurally valid
JWT, the key id named in its header, the key that actually signed it, and
its payload. -/
structure Token where
  wellFormed : Bool
  kid : Nat
  sig : SigningKey
  payload : Claims
deriving DecidableEq

/-- Is the `exp` claim (when present) still in the future? PyJWT raises
`ExpiredSignatureError` when `exp <= now`. -/
def expOk (exp : Option Int) (now : Int) : Bool :=
  match exp with
  | none => true
  | some e => now < e

/-- Is the `nbf` claim (when present) already reached? PyJWT raises
`ImmatureSignatureError` when `nbf > now`. -/
def nbfOk (nbf : Option Int) (now : Int) : Bool :=
  match nbf with
  | none => true
  | some b => b ≤ now

/-- `jwt.decode(token, key=key, audience=aud, algorithms=["RS256"])`:
returns the claims when the token parses, the signature verifies under
`key`, the time claims hold, and the audience matches; raises (`none`)
otherwise. -/
def decodeJwt (t : Token) (key : SigningKey) (audience : String) (now : Int) :
    Option Claims :=
  if t.wellFormed && t.sig == key && expOk t.payload.exp now
      && nbfOk t.payload.nbf now && (t.payload.aud == audience)
  then some t.payload
  else none

/-! ## `verify_token` (security.py lines 70-86, try-all-keys variant) -/

/-- The settings fields `verify_token` reads. -/
structure SecSettings where
  require_cloudflare_zero_access : Bool
  certs_utl : String
  policy_aud : String

/-- Outcome of a `verify_token` call. -/
inductive VerifyResult
  | ok
  | httpError (status : Nat) (detail : String)
  | uncaught
deriving DecidableEq

/-- Result of one `verify_token` call, with the cache it leaves behind and
the number of network fetches it issued. -/
structure VerifyOut where
  result : VerifyResult
  cache : Cache
  fetchCount : Nat

/-- The `for key in keys:` loop (lines 78-85): try `jwt.decode` under each
key in order, swallowing every failure (`except: pass`); report the index
of the first key that succeeds, `none` when all fail. -/
def tryKeys (t : Token) (audience : String) (now : Int) :
    List SigningKey → Option Nat
  | [] => none
  | k :: rest =>
    match decodeJwt t k audience now with
    | some _ => some 0
    | none => (tryKeys t audience now rest).map (· + 1)

/-- `verify_token(request)` (lines 70-86): skip everything when
`require_cloudflare_zero_access` is falsy; 401 without a cookie; fetch the
keys (an `HTTPException` from `_get_public_keys` propagates — the call is
outside any `try`); try every key; 401 when all fail. -/
def verify_token (s : SecSettings) (cookie : Option Token) (cache : Cache)
    (env : FetchEnv) : VerifyOut :=
  if !s.require_cloudflare_zero_access then ⟨.ok, cache, 0⟩
  else
    match cookie with
    | none => ⟨.httpError 401 "Unauthorized", cache, 0⟩
    | some t =>
      let g := get_public_keys cache s.certs_utl env
      match g.result with
      | .ok keys =>
        match tryKeys t s.policy_aud env.now keys with
        | some _ => ⟨.ok, g.cache, g.fetchCount⟩
        | none => ⟨.httpError 401 "Unauthorized", g.cache, g.fetchCount⟩
      | .httpError st d => ⟨.httpError st d, g.cache, g.fetchCount⟩
      | .uncaught => ⟨.uncaught, g.cache, g.fetchCount⟩

/-! ## `verify_token` (auth/cloudflare.py lines 30-54, resolve-by-key-id variant) -/

/-- Result of one `auth.cloudflare.verify_token` call: the outcome and the
value of `request.state.jwt_claims` afterwards. -/
structure CfVerifyOut where
  result : VerifyResult
  jwtClaims : Option Claims

/-- `auth.cloudflare.verify_token(request)`: 401 without a cookie; resolve
the signing key named by the token's `kid` header via
`PyJWKClient.get_signing_key_from_jwt` (a malformed token or an unknown
`kid` raises there, outside any `try`, so it propagates uncaught); then
`jwt.decode` inside a `try` whose `except` maps any failure to 401; on
success the claims are stored in `request.state.jwt_claims`. -/
def cf_verify_token (audience : String) (now : Int) (keys : List SigningKey)
    (cookie : Option Token) (state0 : Option Claims) : CfVerifyOut :=
  match cookie with
  | none => ⟨.httpError 401 "Unauthorized", state0⟩
  | some t =>
    if !t.wellFormed then ⟨.uncaught, state0⟩
    else
      match keys.find? (fun k => k == t.kid) with
      | none => ⟨.uncaught, state0⟩
      | some k =>
        match decodeJwt t k audience now with
        | some claims => ⟨.ok, some claims⟩
        | none => ⟨.httpError 401 "Unauthorized", state0⟩

/-! ## Interleaving model of concurrent `_get_public_keys` calls

`_certs_cache` is shared process-wide state and `_get_public_keys` takes no
lock, so concurrent calls interleave. The unit of interleaving is one
source statement touching the shared dict: the read
`cache_entry = _certs_cache.get(certs_url)` (together with the purely local
freshness test), the network fetch, and the single write
`_certs_cache[certs_url] = (expires, public_keys)` which stores one
complete tuple. Each of `N` processes runs the body of `_get_public_keys`
once; a schedule chooses which process performs its next statement. -/

/-- What process `p`'s own network fetch would deliver, already reduced to
what the code derives from it: success or failure, the parsed non-empty key
list, and the TTL derived from the `Cache-Control` header. -/
structure FetchData where
  ok : Bool
  keys : List SigningKey
  ttl : Int
deriving DecidableEq

/-- Program counter of one in-flight `_get_public_keys` call: before the
cache read; after its fetch returned `d`; or finished with the `(expires,
keys)` pair it returns (`none` = it raised), remembering whether it
fetched. -/
inductive ProcState
  | idle
  | gotFetch (d : FetchData)
  | finished (ret : Option (Int × List SigningKey)) (fetched : Bool)
deriving DecidableEq

/-- Per-process environment: the value `time.time()` gave process `p` and
what its fetch would return. -/
structure ConcEnv (N : Nat) where
  nowOf : Fin N → Int
  fetchOf : Fin N → FetchData

/-- Shared state: the single cache slot for the one `certs_url` in play,
plus every process's program counter. -/
structure ConcState (N : Nat) where
  cache : Option (Int × List SigningKey)
  procs : Fin N → ProcState

/-- One atomic statement of process `p`: the cache read (returning a fresh
entry immediately), the fetch, or the publish-and-return. -/
def concStep {N : Nat} (env : ConcEnv N) (st : ConcState N) (p : Fin N) :
    ConcState N :=
  match st.procs p with
  | .idle =>
    match st.cache with
    | some (e, ks) =>
      if env.nowOf p < e then
        { st with procs := Function.update st.procs p (.finished (some (e, ks)) false) }
      else { st with procs := Function.update st.procs p (.gotFetch (env.fetchOf p)) }
    | none => { st with procs := Function.update st.procs p (.gotFetch (env.fetchOf p)) }
  | .gotFetch d =>
    if d.ok then
      { cache := some (env.nowOf p + d.ttl, d.keys),
        procs := Function.update st.procs p
          (.finished (some (env.nowOf p + d.ttl, d.keys)) true) }
    else { st with procs := Function.update st.procs p (.finished none true) }
  | .finished _ _ => st

/-- Run a schedule (a sequence of process choices) from a state. -/
def concRun {N : Nat} (env : ConcEnv N) : List (Fin N) → ConcState N → ConcState N
  | [], st => st
  | p :: rest, st => concRun env rest (concStep env st p)

/-- Does scheduling `p` now make it issue its network fetch? (It does
exactly when `p` is before its cache read and the read misses or finds an
expired entry.) -/
def isFetchStep {N : Nat} (env : ConcEnv N) (st : ConcState N) (p : Fin N) : Bool :=
  match st.procs p, st.cache with
  | .idle, none => true
  | .idle, some (e, _) => !(env.nowOf p < e : Bool)
  | _, _ => false

/-- Total number of network fetches issued while running a schedule. -/
def fetchEvents {N : Nat} (env : ConcEnv N) : List (Fin N) → ConcState N → Nat
  | [], _ => 0
  | p :: rest, st =>
    (if isFetchStep env st p then 1 else 0) + fetchEvents env rest (concStep env st p)

/-- Has this process already issued its fetch? -/
def hasFetched : ProcState → Bool
  | .idle => false
  | .gotFetch _ => true
  | .finished _ f => f

/-- How many processes have issued their fetch so far. -/
def fetchedCount {N : Nat} (st : ConcState N) : Nat :=
  ∑ q : Fin N, (if hasFetched (st.procs q) then 1 else 0)

/-- An `(expires, keys)` pair both of whose components come from one single
fetch (process `q`'s). -/
def coherentPair {N : Nat} (env : ConcEnv N) (pr : Int × List SigningKey) : Prop :=
  ∃ q : Fin N, (env.fetchOf q).ok = true
    ∧ pr.1 = env.nowOf q + (env.fetchOf q).ttl ∧ pr.2 = (env.fetchOf q).keys

/-- Invariant of the interleaved system started on the stale entry
`(e0, ks0)`: the cache slot holds the original entry or a pair published by
one single fetch; an in-flight fetch result is the environment's; every
finished call returned a pair published by one single fetch. -/
def concInv {N : Nat} (env : ConcEnv N) (e0 : Int) (ks0 : List SigningKey)
    (st : ConcState N) : Prop :=
  (∀ pr, st.cache = some pr → pr = (e0, ks0) ∨ coherentPair env pr)
  ∧ (∀ p d, st.procs p = .gotFetch d → d = env.fetchOf p)
  ∧ (∀ p pr f, st.procs p = .finished (some pr) f → coherentPair env pr)

/-! ## Helper lemmas -/

theorem expOk_eq_true_iff (exp : Option Int) (now : Int) :
    expOk exp now = true ↔ ∀ e, exp = some e → now < e := by
  cases exp <;> simp [expOk]

theorem nbfOk_eq_true_iff (nbf : Option Int) (now : Int) :
    nbfOk nbf now = true ↔ ∀ b, nbf = some b → b ≤ now := by
  cases nbf <;> simp [nbfOk]

/-- `jwt.decode` returns claims exactly when the token parses, is signed by
the key, its time claims hold now, and its audience matches. -/
theorem decodeJwt_eq_some_iff (t : Token) (k : SigningKey) (audience : String)
    (now : Int) (c : Claims) :
    decodeJwt t k audience now = some c ↔
      c = t.payload ∧ t.wellFormed = true ∧ t.sig = k
        ∧ (∀ e, t.payload.exp = some e → now < e)
        ∧ (∀ b, t.payload.nbf = some b → b ≤ now)
        ∧ t.payload.aud = audience := by
  simp only [decodeJwt, Option.ite_none_right_eq_some, Bool.and_eq_true, beq_iff_eq,
    expOk_eq_true_iff, nbfOk_eq_true_iff, Option.some_inj]
  constructor
  · rintro ⟨⟨⟨⟨⟨h1, h2⟩, h3⟩, h4⟩, h5⟩, rfl⟩
    exact ⟨rfl, h1, h2, h3, h4, h5⟩
  · rintro ⟨rfl, h1, h2, h3, h4, h5⟩
    exact ⟨⟨⟨⟨⟨h1, h2⟩, h3⟩, h4⟩, h5⟩, rfl⟩

/-- `jwt.decode` raises exactly when the token is malformed, signed by a
different key, expired, not yet valid, or audience-mismatched. -/
theorem decodeJwt_eq_none_iff (t : Token) (k : SigningKey) (audience : String)
    (now : Int) :
    decodeJwt t k audience now = none ↔
      (t.wellFormed = false ∨ t.sig ≠ k
        ∨ (∃ e, t.payload.exp = some e ∧ e ≤ now)
        ∨ (∃ b, t.payload.nbf = some b ∧ now < b)
        ∨ t.payload.aud ≠ audience) := by
  have hd : decodeJwt t k audience now = none
      ∨ decodeJwt t k audience now = some t.payload := by
    unfold decodeJwt; split
    · exact Or.inr rfl
    · exact Or.inl rfl
  constructor
  · intro h
    by_contra hc
    push_neg at hc
    obtain ⟨h1, h2, h3, h4, h5⟩ := hc
    have hs : decodeJwt t k audience now = some t.payload := by
      rw [decodeJwt_eq_some_iff]
      exact ⟨rfl, Bool.ne_false_iff.mp h1, h2, h3, h4, h5⟩
    rw [h] at hs
    exact Option.noConfusion hs
  · intro h
    rcases hd with hnone | hsome
    · exact hnone
    · rw [decodeJwt_eq_some_iff] at hsome
      obtain ⟨-, h1, h2, h3, h4, h5⟩ := hsome
      rcases h with h | h | h | h | h
      · simp [h1] at h
      · exact absurd h2 h
      · obtain ⟨e, he, hle⟩ := h
        have := h3 e he
        omega
      · obtain ⟨b, hb, hlt⟩ := h
        have := h4 b hb
        omega
      · exact absurd h5 h

/-- The key loop fails exactly when every key fails. -/
theorem tryKeys_eq_none_iff (t : Token) (audience : String) (now : Int)
    (keys : List SigningKey) :
    tryKeys t audience now keys = none ↔
      ∀ k ∈ keys, decodeJwt t k audience now = none := by
  induction keys with
  | nil => simp [tryKeys]
  | cons k rest ih =>
    cases h : decodeJwt t k audience now with
    | some c => simp [tryKeys, h]
    | none => simp [tryKeys, h, ih]

/-- The key loop reports the first index whose key decodes the token. -/
theorem tryKeys_first (t : Token) (audience : String) (now : Int) :
    ∀ (keys : List SigningKey) (i : Nat) (hi : i < keys.length),
      decodeJwt t keys[i] audience now ≠ none →
      (∀ j (hj : j < i), decodeJwt t keys[j] audience now = none) →
      tryKeys t audience now keys = some i := by
  intro keys
  induction keys with
  | nil => intro i hi; simp at hi
  | cons k rest ih =>
    intro i hi hsucc hfail
    cases i with
    | zero =>
      simp only [List.getElem_cons_zero] at hsucc
      cases h : decodeJwt t k audience now with
      | none => exact absurd h hsucc
      | some c => simp [tryKeys, h]
    | succ j =>
      have h0 : decodeJwt t k audience now = none := by
        have := hfail 0 (Nat.succ_pos j)
        simpa using this
      have hj : j < rest.length := by simpa using hi
      have hrest : tryKeys t audience now rest = some j := by
        apply ih j hj
        · simpa using hsucc
        · intro m hm
          have := hfail (m + 1) (Nat.succ_lt_succ hm)
          simpa using this
      simp [tryKeys, h0, hrest]

/-- The JWK conversion loop raises exactly when some entry fails to parse. -/
theorem parseJwks_eq_error_iff (l : List Jwk) :
    parseJwks l = .error () ↔ ∃ j ∈ l, from_jwk j = .error () := by
  induction l with
  | nil => simp [parseJwks]
  | cons j rest ih =>
    cases hj : from_jwk j with
    | error e => cases e; simp [parseJwks, hj]
    | ok k =>
      cases hr : parseJwks rest with
      | error e =>
        cases e
        simp only [parseJwks, hj, hr, List.mem_cons]
        constructor
        · intro _
          obtain ⟨j', hmem, hbad⟩ := ih.mp hr
          exact ⟨j', Or.inr hmem, hbad⟩
        · intro _; trivial
      | ok ks =>
        simp only [parseJwks, hj, hr, List.mem_cons]
        constructor
        · intro h; exact Except.noConfusion h
        · rintro ⟨j', hj' | hj', hbad⟩
          · rw [hj'] at hbad
            rw [hj] at hbad
            exact Except.noConfusion hbad
          · have h2 : parseJwks rest = .error () := ih.mpr ⟨j', hj', hbad⟩
            rw [hr] at h2
            exact Except.noConfusion h2

/-- A successful conversion loop converts every entry: the output has one
key per input entry. -/
theorem parseJwks_ok_length (l : List Jwk) (ks : List SigningKey) :
    parseJwks l = .ok ks → ks.length = l.length := by
  induction l generalizing ks with
  | nil => intro h; cases h; rfl
  | cons j rest ih =>
    intro h
    unfold parseJwks at h
    cases hj : from_jwk j with
    | error e => rw [hj] at h; exact Except.noConfusion h
    | ok k =>
      rw [hj] at h
      cases hr : parseJwks rest with
      | error e => rw [hr] at h; exact Except.noConfusion h
      | ok ks' =>
        rw [hr] at h
        cases h
        simp [ih ks' hr]

/-- When every entry parses, the loop succeeds. -/
theorem parseJwks_ok_of_all (l : List Jwk)
    (h : ∀ j ∈ l, ∃ k, from_jwk j = .ok k) :
    ∃ ks, parseJwks l = .ok ks ∧ ks.length = l.length := by
  cases hr : parseJwks l with
  | error e =>
    cases e
    rw [parseJwks_eq_error_iff] at hr
    obtain ⟨j, hmem, hbad⟩ := hr
    obtain ⟨k, hk⟩ := h j hmem
    rw [hk] at hbad
    exact Except.noConfusion hbad
  | ok ks => exact ⟨ks, rfl, parseJwks_ok_length l ks hr⟩

/-- The fast path: a fresh cache entry is served as-is, with no fetch and
no cache change. -/
theorem get_public_keys_fresh (cache : Cache) (url : String) (env : FetchEnv)
    (e : Int) (ks : List SigningKey)
    (h : cache url = some (e, ks)) (hf : env.now < e) :
    get_public_keys cache url env = ⟨.ok ks, cache, 0⟩ := by
  simp only [get_public_keys, h, if_pos hf]

/-- On a cache miss or an expired entry, `_get_public_keys` runs the slow
path. -/
theorem get_public_keys_eq_fetchKeys (cache : Cache) (url : String) (env : FetchEnv)
    (h : cache url = none ∨ ∃ e ks, cache url = some (e, ks) ∧ e ≤ env.now) :
    get_public_keys cache url env = fetchKeys cache url env := by
  rcases h with h | ⟨e, ks, h, hle⟩
  · simp only [get_public_keys, h]
  · simp only [get_public_keys, h, if_neg (not_lt.mpr hle)]

/-- The slow path issues exactly one network fetch. -/
theorem fetchKeys_count (cache : Cache) (url : String) (env : FetchEnv) :
    (fetchKeys cache url env).fetchCount = 1 := by
  unfold fetchKeys
  cases env.response with
  | none => rfl
  | some r =>
    by_cases h4 : 400 ≤ r.status
    · simp [h4]
    · simp only [if_neg h4]
      cases hb : r.body with
      | none => simp [hb]
      | some doc =>
        simp only [hb]
        cases hpk : parseJwks (doc.keys.getD []) with
        | error e => simp [hpk]
        | ok pks =>
          by_cases hemp : pks = [] <;> simp [hpk, hemp]

/-- A fully successful fetch: 2xx/3xx status, JSON parses, every JWK entry
parses, the key list is non-empty. The whole `(expires, keys)` tuple is
written to the cache, with the TTL derived from the `Cache-Control`
header. -/
theorem fetchKeys_success (cache : Cache) (url : String) (env : FetchEnv)
    (r : HttpResponse) (doc : JwkDoc) (pks : List SigningKey)
    (hresp : env.response = some r) (hst : r.status < 400)
    (hbody : r.body = some doc)
    (hpk : parseJwks (doc.keys.getD []) = .ok pks) (hne : pks ≠ []) :
    fetchKeys cache url env
      = ⟨.ok pks, cacheInsert cache url (env.now + ttlOf (r.cacheControl.getD ""), pks), 1⟩ := by
  simp only [fetchKeys, hresp, if_neg (not_le.mpr hst), hbody, hpk, if_neg hne]
  rfl

/-- A fetch failing with a network error, a non-2xx status, malformed JSON,
or an empty key list raises `HTTPException(500)` and leaves the cache
alone. -/
theorem fetchKeys_fail500 (cache : Cache) (url : String) (env : FetchEnv)
    (hfail : env.response = none
      ∨ ∃ r, env.response = some r
          ∧ (400 ≤ r.status ∨ r.body = none
             ∨ (∃ doc, r.body = some doc ∧ doc.keys.getD [] = []))) :
    fetchKeys cache url env = ⟨.httpError 500 "Internal Server Error", cache, 1⟩ := by
  rcases hfail with h | ⟨r, hr, hcase⟩
  · simp only [fetchKeys, h]
  · rcases hcase with h4 | hb | ⟨doc, hd, hempty⟩
    · simp only [fetchKeys, hr, if_pos h4]
    · by_cases h4 : 400 ≤ r.status
      · simp only [fetchKeys, hr, if_pos h4]
      · simp only [fetchKeys, hr, if_neg h4, hb]
    · by_cases h4 : 400 ≤ r.status
      · simp only [fetchKeys, hr, if_pos h4]
      · simp only [fetchKeys, hr, if_neg h4, hd, hempty]
        simp [parseJwks]

/-- A JWK entry failing to parse propagates as an uncaught exception. -/
theorem fetchKeys_uncaught (cache : Cache) (url : String) (env : FetchEnv)
    (r : HttpResponse) (doc : JwkDoc)
    (hresp : env.response = some r) (hst : r.status < 400)
    (hbody : r.body = some doc)
    (hpk : parseJwks (doc.keys.getD []) = .error ()) :
    fetchKeys cache url env = ⟨.uncaught, cache, 1⟩ := by
  simp only [fetchKeys, hresp, if_neg (not_le.mpr hst), hbody, hpk]

/-- With enforcement on, a request carrying no `CF_Authorization` cookie
is rejected with 401. -/
theorem verify_token_result_noCookie (s : SecSettings) (cache : Cache)
    (env : FetchEnv) (hreq : s.require_cloudflare_zero_access = true) :
    (verify_token s none cache env).result = .httpError 401 "Unauthorized" := by
  simp [verify_token, hreq]

/-- With enforcement on and the key retrieval succeeding, a token's fate is
decided by the key loop alone: accepted when some key succeeds, 401 when
the loop exhausts the keys. -/
theorem verify_token_result_cookie (s : SecSettings) (t : Token)
    (cache : Cache) (env : FetchEnv) (keys : List SigningKey)
    (hreq : s.require_cloudflare_zero_access = true)
    (hkeys : (get_public_keys cache s.certs_utl env).result = .ok keys) :
    ((verify_token s (some t) cache env).result = .ok
      ↔ tryKeys t s.policy_aud env.now keys ≠ none)
    ∧ ((verify_token s (some t) cache env).result = .httpError 401 "Unauthorized"
      ↔ tryKeys t s.policy_aud env.now keys = none) := by
  cases htry : tryKeys t s.policy_aud env.now keys <;>
    exact ⟨by simp [verify_token, hreq, hkeys, htry],
           by simp [verify_token, hreq, hkeys, htry]⟩

/-! ## Claim theorems -/

/-- C10: when the setting `require_cloudflare_zero_access` is falsy,
`verify_token` returns immediately: it does not read the
`CF_Authorization` cookie, fetches no keys (zero fetches, cache left
as-is), and performs no verification — every request, including one with
no token at all, passes authentication unchecked. -/
theorem c10_bypass_when_disabled (s : SecSettings) (cookie : Option Token)
    (cache : Cache) (env : FetchEnv)
    (h : s.require_cloudflare_zero_access = false) :
    verify_token s cookie cache env = ⟨.ok, cache, 0⟩ := by
  simp [verify_token, h]

/-- Witness for C10 at a concrete tokenless request. -/
theorem c10_bypass_when_disabled_witness :
    verify_token ⟨false, "u", "aud"⟩ none emptyCache ⟨0, none⟩ = ⟨.ok, emptyCache, 0⟩ :=
  c10_bypass_when_disabled ⟨false, "u", "aud"⟩ none emptyCache ⟨0, none⟩ rfl

/-- C6: the TTL derived from the `Cache-Control` header is the integer of a
`max-age=<int>` directive found by scanning the comma-separated directives
when one parses, and the fixed default of 14400 seconds otherwise (header
absent/empty, malformed, no `max-age`, or a non-numeric value like
`max-age=abc`); `max-age=120` yields 120. On a successful fetch the cache
entry expires exactly `ttl` seconds after `now`. `_parse_max_age` and
`ttlOf` are total functions, so no header value raises. -/
theorem c6_ttl_derivation :
    (∀ cc n, parse_max_age cc = some n → ttlOf cc = n)
    ∧ (∀ cc, parse_max_age cc = none → ttlOf cc = 14400)
    ∧ ttlOf "max-age=120" = 120
    ∧ ttlOf "" = 14400
    ∧ ttlOf "max-age=abc" = 14400
    ∧ ttlOf "no-cache, no-store" = 14400
    ∧ (∀ (cache : Cache) url env r doc pks,
        cache url = none → env.response = some r → r.status < 400 →
        r.body = some doc → parseJwks (doc.keys.getD []) = .ok pks → pks ≠ [] →
        (get_public_keys cache url env).cache url
          = some (env.now + ttlOf (r.cacheControl.getD ""), pks)) := by
  refine ⟨?_, ?_, by decide, by decide, by decide, by decide, ?_⟩
  · intro cc n h
    simp [ttlOf, h]
  · intro cc h
    simp [ttlOf, h, defaultTtl]
  · intro cache url env r doc pks hmiss hresp hst hbody hpk hne
    rw [get_public_keys_eq_fetchKeys cache url env (Or.inl hmiss),
      fetchKeys_success cache url env r doc pks hresp hst hbody hpk hne]
    simp [cacheInsert]

/-- Witness for C6: `Cache-Control: max-age=120, private` yields a
120-second TTL. -/
theorem c6_ttl_derivation_witness :
    parse_max_age "max-age=120, private" = some 120
    ∧ ttlOf "max-age=120, private" = 120 :=
  ⟨by decide, c6_ttl_derivation.1 "max-age=120, private" 120 (by decide)⟩

/-- C1: with enforcement on and the key set fetched, the try-all-keys
validator attempts the keys in the provided order: if the key at index `i`
verifies the token (signature, time claims, audience) and every earlier
key fails, the loop succeeds exactly at index `i` — an earlier key's
failure does not abort the attempt — and `verify_token` accepts the
request. -/
theorem c1_try_all_keys_in_order (s : SecSettings) (t : Token) (cache : Cache)
    (env : FetchEnv) (keys : List SigningKey) (i : Nat)
    (hreq : s.require_cloudflare_zero_access = true)
    (hkeys : (get_public_keys cache s.certs_utl env).result = .ok keys)
    (hi : i < keys.length)
    (hsucc : decodeJwt t keys[i] s.policy_aud env.now ≠ none)
    (hfail : ∀ j (hj : j < i), decodeJwt t keys[j] s.policy_aud env.now = none) :
    tryKeys t s.policy_aud env.now keys = some i
    ∧ (verify_token s (some t) cache env).result = .ok := by
  have htry := tryKeys_first t s.policy_aud env.now keys i hi hsucc hfail
  refine ⟨htry, ?_⟩
  rw [(verify_token_result_cookie s t cache env keys hreq hkeys).1, htry]
  exact Option.noConfusion

/-- Witness for C1: key set `[5, 9]` in that order, token signed by the
second key `9`; the first key fails, the second is attempted and
succeeds. -/
theorem c1_try_all_keys_in_order_witness :
    tryKeys ⟨true, 9, 9, ⟨some "e@x", "aud", some 50, none⟩⟩ "aud" 0 [5, 9] = some 1
    ∧ (verify_token ⟨true, "u", "aud"⟩
        (some ⟨true, 9, 9, ⟨some "e@x", "aud", some 50, none⟩⟩) emptyCache
        ⟨0, some ⟨200, some ⟨some [.rsa 5, .rsa 9]⟩, none⟩⟩).result = .ok :=
  c1_try_all_keys_in_order ⟨true, "u", "aud"⟩
    ⟨true, 9, 9, ⟨some "e@x", "aud", some 50, none⟩⟩ emptyCache
    ⟨0, some ⟨200, some ⟨some [.rsa 5, .rsa 9]⟩, none⟩⟩ [5, 9] 1
    rfl (by decide) (by decide) (by decide)
    (fun j hj => by
      have h0 : j = 0 := by omega
      subst h0
      simp only [List.getElem_cons_zero]
      decide)

/-- C8: with enforcement on and the key set fetched, `verify_token` rejects
with 401 exactly when the token is absent or every provided key fails to
verify it, succeeds exactly when some key verifies it, and a key fails
exactly when the token is malformed, signed by a different key, expired,
not yet valid, or audience-mismatched. -/
theorem c8_reject_401_iff (s : SecSettings) (cookie : Option Token)
    (cache : Cache) (env : FetchEnv) (keys : List SigningKey)
    (hreq : s.require_cloudflare_zero_access = true)
    (hkeys : (get_public_keys cache s.certs_utl env).result = .ok keys) :
    ((verify_token s cookie cache env).result = .httpError 401 "Unauthorized"
      ↔ (cookie = none
          ∨ ∃ t, cookie = some t
              ∧ ∀ k ∈ keys, decodeJwt t k s.policy_aud env.now = none))
    ∧ ((verify_token s cookie cache env).result = .ok
      ↔ ∃ t, cookie = some t ∧ ∃ k ∈ keys, decodeJwt t k s.policy_aud env.now ≠ none)
    ∧ (∀ t k, decodeJwt t k s.policy_aud env.now = none
      ↔ (t.wellFormed = false ∨ t.sig ≠ k
          ∨ (∃ e, t.payload.exp = some e ∧ e ≤ env.now)
          ∨ (∃ b, t.payload.nbf = some b ∧ env.now < b)
          ∨ t.payload.aud ≠ s.policy_aud)) := by
  refine ⟨?_, ?_, fun t k => decodeJwt_eq_none_iff t k s.policy_aud env.now⟩
  · cases cookie with
    | none =>
      rw [verify_token_result_noCookie s cache env hreq]
      simp
    | some t =>
      rw [(verify_token_result_cookie s t cache env keys hreq hkeys).2,
        tryKeys_eq_none_iff]
      constructor
      · intro h
        exact Or.inr ⟨t, rfl, h⟩
      · rintro (h | ⟨t', ht', h⟩)
        · exact Option.noConfusion h
        · obtain rfl := Option.some.inj ht'
          exact h
  · cases cookie with
    | none =>
      rw [verify_token_result_noCookie s cache env hreq]
      simp
    | some t =>
      rw [(verify_token_result_cookie s t cache env keys hreq hkeys).1]
      constructor
      · intro h
        rw [Ne, tryKeys_eq_none_iff] at h
        push_neg at h
        obtain ⟨k, hk, hkne⟩ := h
        exact ⟨t, rfl, k, hk, hkne⟩
      · rintro ⟨t', ht', k, hk, hkne⟩
        obtain rfl := Option.some.inj ht'
        rw [Ne, tryKeys_eq_none_iff]
        push_neg
        exact ⟨k, hk, hkne⟩

/-- Witness for C8 at a concrete request with no cookie. -/
theorem c8_reject_401_iff_witness :
    ((verify_token ⟨true, "u", "aud"⟩ none emptyCache
        ⟨0, some ⟨200, some ⟨some [.rsa 5]⟩, none⟩⟩).result = .httpError 401 "Unauthorized"
      ↔ ((none : Option Token) = none
          ∨ ∃ t, (none : Option Token) = some t
              ∧ ∀ k ∈ [5], decodeJwt t k "aud" 0 = none)) :=
  (c8_reject_401_iff ⟨true, "u", "aud"⟩ none emptyCache
    ⟨0, some ⟨200, some ⟨some [.rsa 5]⟩, none⟩⟩ [5] rfl (by decide)).1

/-- C3 counterexample: an expired cache entry for the certs URL plus a
failing fetch. The claim says the request is rejected with a 401
authentication rejection; the code raises `HTTPException(500)` (line 53),
so the 500 propagates and no 401 is produced. -/
theorem c3_counterexample :
    (verify_token ⟨true, "u", "a"⟩
        (some ⟨true, 1, 1, ⟨some "e", "a", none, none⟩⟩)
        (cacheInsert emptyCache "u" (5, [1])) ⟨10, none⟩).result
      = .httpError 500 "Internal Server Error"
    ∧ (verify_token ⟨true, "u", "a"⟩
        (some ⟨true, 1, 1, ⟨some "e", "a", none, none⟩⟩)
        (cacheInsert emptyCache "u" (5, [1])) ⟨10, none⟩).result
      ≠ .httpError 401 "Unauthorized" := by
  constructor
  · decide
  · decide

/-- C3 (amended): when a cache entry for the issuer URL has expired and the
fresh JWKS fetch fails, the operation fails closed — the stale keys are
not served and the request is rejected — but with a 500 Internal Server
Error, not a 401; the stale entry stays in the cache untouched. -/
theorem c3_fail_closed_500 (s : SecSettings) (t : Token) (cache : Cache)
    (env : FetchEnv) (e : Int) (ks : List SigningKey)
    (hreq : s.require_cloudflare_zero_access = true)
    (hent : cache s.certs_utl = some (e, ks))
    (hexp : e ≤ env.now)
    (hfail : env.response = none
      ∨ ∃ r, env.response = some r
          ∧ (400 ≤ r.status ∨ r.body = none
             ∨ (∃ doc, r.body = some doc ∧ doc.keys.getD [] = []))) :
    (verify_token s (some t) cache env).result = .httpError 500 "Internal Server Error"
    ∧ (verify_token s (some t) cache env).cache = cache := by
  have hg : get_public_keys cache s.certs_utl env
      = ⟨.httpError 500 "Internal Server Error", cache, 1⟩ := by
    rw [get_public_keys_eq_fetchKeys cache s.certs_utl env (Or.inr ⟨e, ks, hent, hexp⟩)]
    exact fetchKeys_fail500 cache s.certs_utl env hfail
  constructor <;> simp [verify_token, hreq, hg]

/-- Witness for the amended C3. -/
theorem c3_fail_closed_500_witness :
    (verify_token ⟨true, "w", "a"⟩
        (some ⟨true, 2, 2, ⟨some "e", "a", none, none⟩⟩)
        (cacheInsert emptyCache "w" (7, [2])) ⟨9, none⟩).result
      = .httpError 500 "Internal Server Error"
    ∧ (verify_token ⟨true, "w", "a"⟩
        (some ⟨true, 2, 2, ⟨some "e", "a", none, none⟩⟩)
        (cacheInsert emptyCache "w" (7, [2])) ⟨9, none⟩).cache
      = cacheInsert emptyCache "w" (7, [2]) :=
  c3_fail_closed_500 ⟨true, "w", "a"⟩ ⟨true, 2, 2, ⟨some "e", "a", none, none⟩⟩
    (cacheInsert emptyCache "w" (7, [2])) ⟨9, none⟩ 7 [2]
    rfl (by decide) (by decide) (Or.inl rfl)

/-- C2 counterexample: a JWKS document whose first entry fails to parse and
whose second parses fine. The claim says the bad entry is skipped and the
fetch succeeds with the one good key; the code's conversion loop sits
outside the `try`/`except` (lines 55-58), so the failure propagates as an
uncaught exception and the fetch does not succeed. -/
theorem c2_counterexample :
    (get_public_keys emptyCache "u"
        ⟨0, some ⟨200, some ⟨some [Jwk.bad, Jwk.rsa 7]⟩, none⟩⟩).result = .uncaught
    ∧ (get_public_keys emptyCache "u"
        ⟨0, some ⟨200, some ⟨some [Jwk.bad, Jwk.rsa 7]⟩, none⟩⟩).result ≠ .ok [7] := by
  constructor
  · decide
  · decide

/-- C2 (amended): JWK entries that fail to parse are not skipped — the
first such entry aborts the whole fetch with an uncaught exception; when
every entry parses, the fetch fails (with `HTTPException(500)`) if and only
if the document's key list is empty, and otherwise succeeds with one
signing key per entry. -/
theorem c2_bad_jwk_aborts (cache : Cache) (url : String) (env : FetchEnv)
    (r : HttpResponse) (doc : JwkDoc)
    (hmiss : cache url = none ∨ ∃ e ks, cache url = some (e, ks) ∧ e ≤ env.now)
    (hresp : env.response = some r) (hst : r.status < 400)
    (hbody : r.body = some doc) :
    ((∃ j ∈ doc.keys.getD [], from_jwk j = .error ())
      → (get_public_keys cache url env).result = .uncaught)
    ∧ ((∀ j ∈ doc.keys.getD [], ∃ k, from_jwk j = .ok k)
      → (((get_public_keys cache url env).result = .httpError 500 "Internal Server Error")
          ↔ doc.keys.getD [] = [])
        ∧ (doc.keys.getD [] ≠ []
          → ∃ ks, (get_public_keys cache url env).result = .ok ks
              ∧ ks.length = (doc.keys.getD []).length)) := by
  rw [get_public_keys_eq_fetchKeys cache url env hmiss]
  constructor
  · intro hbad
    rw [fetchKeys_uncaught cache url env r doc hresp hst hbody
      ((parseJwks_eq_error_iff (doc.keys.getD [])).mpr hbad)]
  · intro hall
    obtain ⟨ks, hks, hlen⟩ := parseJwks_ok_of_all (doc.keys.getD []) hall
    by_cases hemp : doc.keys.getD [] = []
    · have hks0 : parseJwks (doc.keys.getD []) = .ok [] := by
        rw [hemp]
        rfl
      rw [fetchKeys_fail500 cache url env (Or.inr ⟨r, hresp, Or.inr (Or.inr ⟨doc, hbody, hemp⟩)⟩)]
      constructor
      · simp [hemp]
      · intro h
        exact absurd hemp h
    · have hne : ks ≠ [] := by
        intro h
        rw [h] at hlen
        exact hemp (List.eq_nil_of_length_eq_zero hlen.symm)
      rw [fetchKeys_success cache url env r doc ks hresp hst hbody hks hne]
      constructor
      · constructor
        · intro h
          exact absurd h (by simp)
        · intro h
          exact absurd h hemp
      · intro _
        exact ⟨ks, rfl, hlen⟩

/-- Witness for the amended C2. -/
theorem c2_bad_jwk_aborts_witness :
    ((∃ j ∈ [Jwk.bad, Jwk.rsa 7], from_jwk j = .error ())
      → (get_public_keys emptyCache "u"
          ⟨0, some ⟨200, some ⟨some [Jwk.bad, Jwk.rsa 7]⟩, none⟩⟩).result = .uncaught)
    ∧ ((∀ j ∈ [Jwk.bad, Jwk.rsa 7], ∃ k, from_jwk j = .ok k)
      → (((get_public_keys emptyCache "u"
            ⟨0, some ⟨200, some ⟨some [Jwk.bad, Jwk.rsa 7]⟩, none⟩⟩).result
              = .httpError 500 "Internal Server Error")
          ↔ ([Jwk.bad, Jwk.rsa 7] : List Jwk) = [])
        ∧ (([Jwk.bad, Jwk.rsa 7] : List Jwk) ≠ []
          → ∃ ks, (get_public_keys emptyCache "u"
              ⟨0, some ⟨200, some ⟨some [Jwk.bad, Jwk.rsa 7]⟩, none⟩⟩).result = .ok ks
              ∧ ks.length = ([Jwk.bad, Jwk.rsa 7] : List Jwk).length)) :=
  c2_bad_jwk_aborts emptyCache "u"
    ⟨0, some ⟨200, some ⟨some [Jwk.bad, Jwk.rsa 7]⟩, none⟩⟩
    ⟨200, some ⟨some [Jwk.bad, Jwk.rsa 7]⟩, none⟩ ⟨some [Jwk.bad, Jwk.rsa 7]⟩
    (Or.inl rfl) rfl (by decide) rfl

/-- The slow path either performs a complete, successful write of a
non-empty key list, or returns an error leaving the cache untouched. -/
theorem fetchKeys_cases (cache : Cache) (url : String) (env : FetchEnv) :
    (∃ ks expires, ks ≠ []
      ∧ (fetchKeys cache url env).result = .ok ks
      ∧ (fetchKeys cache url env).cache = cacheInsert cache url (expires, ks))
    ∨ ((fetchKeys cache url env).cache = cache
      ∧ ∀ ks, (fetchKeys cache url env).result ≠ .ok ks) := by
  rcases hresp : env.response with _ | r
  · rw [fetchKeys_fail500 cache url env (Or.inl hresp)]
    exact Or.inr ⟨rfl, fun ks h => KeysResult.noConfusion h⟩
  · by_cases h4 : 400 ≤ r.status
    · rw [fetchKeys_fail500 cache url env (Or.inr ⟨r, hresp, Or.inl h4⟩)]
      exact Or.inr ⟨rfl, fun ks h => KeysResult.noConfusion h⟩
    · rcases hb : r.body with _ | doc
      · rw [fetchKeys_fail500 cache url env (Or.inr ⟨r, hresp, Or.inr (Or.inl hb)⟩)]
        exact Or.inr ⟨rfl, fun ks h => KeysResult.noConfusion h⟩
      · rcases hpk : parseJwks (doc.keys.getD []) with e | pks
        · cases e
          rw [fetchKeys_uncaught cache url env r doc hresp (by omega) hb hpk]
          exact Or.inr ⟨rfl, fun ks h => KeysResult.noConfusion h⟩
        · by_cases hemp : pks = []
          · subst hemp
            have hdoc : doc.keys.getD [] = [] :=
              List.eq_nil_of_length_eq_zero (parseJwks_ok_length _ _ hpk).symm
            rw [fetchKeys_fail500 cache url env
              (Or.inr ⟨r, hresp, Or.inr (Or.inr ⟨doc, hb, hdoc⟩)⟩)]
            exact Or.inr ⟨rfl, fun ks h => KeysResult.noConfusion h⟩
          · rw [fetchKeys_success cache url env r doc pks hresp (by omega) hb hpk hemp]
            exact Or.inl ⟨pks, env.now + ttlOf (r.cacheControl.getD ""), hemp, rfl, rfl⟩

/-- The slow path preserves non-emptiness of every cache entry, and leaves
the cache untouched whenever it does not return keys. -/
theorem fetchKeys_inv (cache : Cache) (url : String) (env : FetchEnv)
    (hinv : ∀ u e ks, cache u = some (e, ks) → ks ≠ []) :
    (∀ u e ks, (fetchKeys cache url env).cache u = some (e, ks) → ks ≠ [])
    ∧ ((∀ ks, (fetchKeys cache url env).result ≠ .ok ks)
      → (fetchKeys cache url env).cache = cache) := by
  rcases fetchKeys_cases cache url env with ⟨ks', exp', hne, hres, hcache⟩ | ⟨hcache, hres⟩
  · constructor
    · intro u e' ks'' h
      rw [hcache] at h
      unfold cacheInsert at h
      by_cases hu : u = url
      · rw [if_pos hu] at h
        injection h with h2
        injection h2 with he hk
        rw [← hk]
        exact hne
      · rw [if_neg hu] at h
        exact hinv u e' ks'' h
    · intro hbad
      exact absurd hres (hbad ks')
  · refine ⟨?_, fun _ => hcache⟩
    intro u e' ks'' h
    rw [hcache] at h
    exact hinv u e' ks'' h

/-- C5: invariant of the key-set cache: if every existing entry has a
non-empty key list, then after any `_get_public_keys` call every entry
still does; and a call that does not return keys (network error, non-2xx,
malformed JSON, unparsable JWK entry, or zero keys) leaves the cache
exactly as it was — it never creates or replaces an entry. -/
theorem c5_cache_invariant (cache : Cache) (url : String) (env : FetchEnv)
    (hinv : ∀ u e ks, cache u = some (e, ks) → ks ≠ []) :
    (∀ u e ks, (get_public_keys cache url env).cache u = some (e, ks) → ks ≠ [])
    ∧ ((∀ ks, (get_public_keys cache url env).result ≠ .ok ks)
      → (get_public_keys cache url env).cache = cache) := by
  rcases hc : cache url with _ | ⟨e, ks⟩
  · rw [get_public_keys_eq_fetchKeys cache url env (Or.inl hc)]
    exact fetchKeys_inv cache url env hinv
  · by_cases hf : env.now < e
    · rw [get_public_keys_fresh cache url env e ks hc hf]
      exact ⟨hinv, fun _ => rfl⟩
    · rw [get_public_keys_eq_fetchKeys cache url env (Or.inr ⟨e, ks, hc, not_lt.mp hf⟩)]
      exact fetchKeys_inv cache url env hinv

/-- Witness for C5: the `{"keys": []}` scenario — the fetch fails with 500
and the stale entry (with its non-empty key list) is untouched. -/
theorem c5_cache_invariant_witness :
    (∀ u e ks,
      (get_public_keys (cacheInsert emptyCache "u" (5, [2])) "u"
          ⟨10, some ⟨200, some ⟨some []⟩, none⟩⟩).cache u = some (e, ks) → ks ≠ [])
    ∧ ((∀ ks,
        (get_public_keys (cacheInsert emptyCache "u" (5, [2])) "u"
            ⟨10, some ⟨200, some ⟨some []⟩, none⟩⟩).result ≠ .ok ks)
      → (get_public_keys (cacheInsert emptyCache "u" (5, [2])) "u"
            ⟨10, some ⟨200, some ⟨some []⟩, none⟩⟩).cache
          = cacheInsert emptyCache "u" (5, [2])) :=
  c5_cache_invariant (cacheInsert emptyCache "u" (5, [2])) "u"
    ⟨10, some ⟨200, some ⟨some []⟩, none⟩⟩
    (fun u e ks h => by
      by_cases hu : u = "u"
      · have h2 : (some ((5 : Int), [(2 : Nat)]) : Option (Int × List Nat))
            = some (e, ks) := by
          rw [← h]
          simp [cacheInsert, hu]
        injection h2 with h3
        injection h3 with he hk
        rw [← hk]
        decide
      · have hn : cacheInsert emptyCache "u" (5, [2]) u = none := by
          simp [cacheInsert, emptyCache, hu]
        rw [hn] at h
        exact Option.noConfusion h)

/-- C7: a call finding a fresh entry (`now` strictly before its expiry)
returns the cached keys with zero fetches and no cache change; a call
finding an expired entry issues exactly one fetch, and on success replaces
the entry wholesale with the newly parsed keys and the new expiry. -/
theorem c7_fresh_hit_and_refresh (cache : Cache) (url : String) (env : FetchEnv) :
    (∀ e ks, cache url = some (e, ks) → env.now < e →
      get_public_keys cache url env = ⟨.ok ks, cache, 0⟩)
    ∧ (∀ e ks, cache url = some (e, ks) → e ≤ env.now →
        (get_public_keys cache url env).fetchCount = 1)
    ∧ (∀ e ks r doc pks, cache url = some (e, ks) → e ≤ env.now →
        env.response = some r → r.status < 400 → r.body = some doc →
        parseJwks (doc.keys.getD []) = .ok pks → pks ≠ [] →
        get_public_keys cache url env
          = ⟨.ok pks,
             cacheInsert cache url (env.now + ttlOf (r.cacheControl.getD ""), pks), 1⟩) := by
  refine ⟨fun e ks hc hf => get_public_keys_fresh cache url env e ks hc hf, ?_, ?_⟩
  · intro e ks hc hle
    rw [get_public_keys_eq_fetchKeys cache url env (Or.inr ⟨e, ks, hc, hle⟩)]
    exact fetchKeys_count cache url env
  · intro e ks r doc pks hc hle hresp hst hbody hpk hne
    rw [get_public_keys_eq_fetchKeys cache url env (Or.inr ⟨e, ks, hc, hle⟩)]
    exact fetchKeys_success cache url env r doc pks hresp hst hbody hpk hne

/-- Witness for C7: a fresh hit serves the cache with zero fetches; an
expired entry triggers exactly one fetch. -/
theorem c7_fresh_hit_and_refresh_witness :
    get_public_keys (cacheInsert emptyCache "u" (100, [3])) "u" ⟨10, none⟩
      = ⟨.ok [3], cacheInsert emptyCache "u" (100, [3]), 0⟩
    ∧ (get_public_keys (cacheInsert emptyCache "u" (5, [3])) "u" ⟨10, none⟩).fetchCount
      = 1 :=
  ⟨(c7_fresh_hit_and_refresh (cacheInsert emptyCache "u" (100, [3])) "u" ⟨10, none⟩).1
      100 [3] (by decide) (by decide),
   (c7_fresh_hit_and_refresh (cacheInsert emptyCache "u" (5, [3])) "u" ⟨10, none⟩).2.1
      5 [3] (by decide) (by decide)⟩

/-- C4: a well-formed, unexpired, correctly-audienced token signed by a key
of the current key set (and naming it in its `kid` header) verifies: the
kid-resolving validator of `auth/cloudflare.py` accepts it and attaches the
decoded claims — which carry the token's email — to the request state, and
the try-all-keys loop of `security.py` accepts it as well. -/
theorem c4_valid_token_accepted (keys : List SigningKey) (t : Token)
    (audience : String) (now : Int) (state0 : Option Claims)
    (hwf : t.wellFormed = true) (hmem : t.sig ∈ keys) (hkid : t.kid = t.sig)
    (hexp : ∀ e, t.payload.exp = some e → now < e)
    (hnbf : ∀ b, t.payload.nbf = some b → b ≤ now)
    (haud : t.payload.aud = audience) :
    (cf_verify_token audience now keys (some t) state0).result = .ok
    ∧ (cf_verify_token audience now keys (some t) state0).jwtClaims = some t.payload
    ∧ (∃ c, (cf_verify_token audience now keys (some t) state0).jwtClaims = some c
        ∧ c.email = t.payload.email)
    ∧ tryKeys t audience now keys ≠ none := by
  have hsome : (keys.find? (fun k => k == t.kid)).isSome := by
    rw [List.find?_isSome]
    exact ⟨t.sig, hmem, by simp [hkid]⟩
  obtain ⟨k, hk⟩ := Option.isSome_iff_exists.mp hsome
  have hkk : k = t.sig := by
    have hp := List.find?_some hk
    rw [beq_iff_eq] at hp
    rw [hp, hkid]
  have hdec : decodeJwt t k audience now = some t.payload := by
    rw [decodeJwt_eq_some_iff]
    exact ⟨rfl, hwf, hkk.symm, hexp, hnbf, haud⟩
  have hdecs : decodeJwt t t.sig audience now = some t.payload := by
    rw [decodeJwt_eq_some_iff]
    exact ⟨rfl, hwf, rfl, hexp, hnbf, haud⟩
  refine ⟨?_, ?_, ⟨t.payload, ?_, rfl⟩, ?_⟩
  · simp [cf_verify_token, hwf, hk, hdec]
  · simp [cf_verify_token, hwf, hk, hdec]
  · simp [cf_verify_token, hwf, hk, hdec]
  · rw [Ne, tryKeys_eq_none_iff]
    push_neg
    exact ⟨t.sig, hmem, by simp [hdecs]⟩

/-- Witness for C4 at a concrete valid token signed by the second of two
keys. -/
theorem c4_valid_token_accepted_witness :
    (cf_verify_token "aud" 0 [4, 9]
        (some ⟨true, 9, 9, ⟨some "u@x", "aud", some 99, some (-3)⟩⟩) none).result = .ok
    ∧ (cf_verify_token "aud" 0 [4, 9]
        (some ⟨true, 9, 9, ⟨some "u@x", "aud", some 99, some (-3)⟩⟩) none).jwtClaims
      = some ⟨some "u@x", "aud", some 99, some (-3)⟩
    ∧ (∃ c, (cf_verify_token "aud" 0 [4, 9]
        (some ⟨true, 9, 9, ⟨some "u@x", "aud", some 99, some (-3)⟩⟩) none).jwtClaims
          = some c ∧ c.email = some "u@x")
    ∧ tryKeys ⟨true, 9, 9, ⟨some "u@x", "aud", some 99, some (-3)⟩⟩ "aud" 0 [4, 9]
      ≠ none :=
  c4_valid_token_accepted [4, 9] ⟨true, 9, 9, ⟨some "u@x", "aud", some 99, some (-3)⟩⟩
    "aud" 0 none rfl (by decide) rfl
    (fun e he => by injection he with h; omega)
    (fun b hb => by injection hb with h; omega)
    rfl

/-- Splitting a fetched-process count at one updated position. -/
theorem count_update {N : Nat} (f : Fin N → ProcState) (p : Fin N) (v : ProcState) :
    (∑ q : Fin N, (if hasFetched (Function.update f p v q) then (1 : Nat) else 0))
      + (if hasFetched (f p) then (1 : Nat) else 0)
      = (∑ q : Fin N, (if hasFetched (f q) then (1 : Nat) else 0))
        + (if hasFetched v then (1 : Nat) else 0) := by
  rw [← Finset.sum_erase_add Finset.univ _ (Finset.mem_univ p),
    ← Finset.sum_erase_add Finset.univ
      (fun q => if hasFetched (f q) then (1 : Nat) else 0) (Finset.mem_univ p)]
  rw [Function.update_same]
  rw [Finset.sum_congr rfl (fun q hq => by
    rw [Function.update_noteq (Finset.ne_of_mem_erase hq)])]
  omega

/-- One step increments the fetched-process count exactly when it is the
fetch statement of the scheduled process. -/
theorem fetchedCount_step {N : Nat} (env : ConcEnv N) (st : ConcState N) (p : Fin N) :
    fetchedCount (concStep env st p)
      = fetchedCount st + (if isFetchStep env st p then 1 else 0) := by
  cases hp : st.procs p with
  | idle =>
    cases hc : st.cache with
    | none =>
      have hstep : concStep env st p
          = { st with procs := Function.update st.procs p (.gotFetch (env.fetchOf p)) } := by
        simp [concStep, hp, hc]
      have hfs : isFetchStep env st p = true := by
        simp [isFetchStep, hp, hc]
      rw [hstep, hfs]
      have hcu := count_update st.procs p (ProcState.gotFetch (env.fetchOf p))
      rw [hp] at hcu
      simp only [hasFetched, if_false, if_true, Nat.add_zero] at hcu
      unfold fetchedCount
      simpa using hcu
    | some pr0 =>
      obtain ⟨e, ks⟩ := pr0
      by_cases hlt : env.nowOf p < e
      · have hstep : concStep env st p
            = { st with procs := Function.update st.procs p (.finished (some (e, ks)) false) } := by
          simp [concStep, hp, hc, hlt]
        have hfs : isFetchStep env st p = false := by
          simp [isFetchStep, hp, hc, hlt]
        rw [hstep, hfs]
        have hcu := count_update st.procs p (ProcState.finished (some (e, ks)) false)
        rw [hp] at hcu
        simp only [hasFetched, if_false, Nat.add_zero] at hcu
        unfold fetchedCount
        simpa using hcu
      · have hstep : concStep env st p
            = { st with procs := Function.update st.procs p (.gotFetch (env.fetchOf p)) } := by
          simp [concStep, hp, hc, hlt]
        have hfs : isFetchStep env st p = true := by
          simp [isFetchStep, hp, hc, hlt]
        rw [hstep, hfs]
        have hcu := count_update st.procs p (ProcState.gotFetch (env.fetchOf p))
        rw [hp] at hcu
        simp only [hasFetched, if_false, if_true, Nat.add_zero] at hcu
        unfold fetchedCount
        simpa using hcu
  | gotFetch d =>
    have hfs : isFetchStep env st p = false := by
      simp [isFetchStep, hp]
    rw [hfs]
    by_cases hok : d.ok
    · have hstep : concStep env st p
          = { cache := some (env.nowOf p + d.ttl, d.keys),
              procs := Function.update st.procs p
                (.finished (some (env.nowOf p + d.ttl, d.keys)) true) } := by
        simp [concStep, hp, hok]
      rw [hstep]
      have hcu := count_update st.procs p
        (ProcState.finished (some (env.nowOf p + d.ttl, d.keys)) true)
      rw [hp] at hcu
      simp only [hasFetched, if_true] at hcu
      unfold fetchedCount
      simpa using hcu
    · have hstep : concStep env st p
          = { st with procs := Function.update st.procs p (.finished none true) } := by
        simp [concStep, hp, hok]
      rw [hstep]
      have hcu := count_update st.procs p (ProcState.finished none true)
      rw [hp] at hcu
      simp only [hasFetched, if_true] at hcu
      unfold fetchedCount
      simpa using hcu
  | finished r f =>
    have hfs : isFetchStep env st p = false := by
      simp [isFetchStep, hp]
    have hstep : concStep env st p = st := by
      simp [concStep, hp]
    rw [hstep, hfs]
    simp

/-- Running a schedule raises the fetched-process count by exactly the
number of fetch events the run performs. -/
theorem fetchedCount_run {N : Nat} (env : ConcEnv N) (sched : List (Fin N)) :
    ∀ st, fetchedCount (concRun env sched st)
      = fetchedCount st + fetchEvents env sched st := by
  induction sched with
  | nil =>
    intro st
    simp [concRun, fetchEvents]
  | cons p rest ih =>
    intro st
    show fetchedCount (concRun env rest (concStep env st p)) = _
    rw [ih (concStep env st p), fetchedCount_step]
    show _ = fetchedCount st
      + ((if isFetchStep env st p then 1 else 0) + fetchEvents env rest (concStep env st p))
    omega

/-- At most one fetch per process: the count is bounded by `N`. -/
theorem fetchedCount_le {N : Nat} (st : ConcState N) : fetchedCount st ≤ N := by
  unfold fetchedCount
  calc (∑ q : Fin N, (if hasFetched (st.procs q) then (1 : Nat) else 0))
      ≤ ∑ _q : Fin N, 1 := Finset.sum_le_sum (fun q _ => by split <;> omega)
    _ = N := by simp

/-- One step preserves the coherence invariant (started on an entry that is
expired for every process). -/
theorem concInv_step {N : Nat} (env : ConcEnv N) (e0 : Int) (ks0 : List SigningKey)
    (hexp : ∀ p, e0 ≤ env.nowOf p) (st : ConcState N) (p : Fin N)
    (h : concInv env e0 ks0 st) : concInv env e0 ks0 (concStep env st p) := by
  obtain ⟨hcache, hgot, hfin⟩ := h
  cases hp : st.procs p with
  | idle =>
    cases hc : st.cache with
    | none =>
      have hstep : concStep env st p
          = { st with procs := Function.update st.procs p (.gotFetch (env.fetchOf p)) } := by
        simp [concStep, hp, hc]
      rw [hstep]
      refine ⟨hcache, ?_, ?_⟩
      · intro q d hq
        by_cases hqp : q = p
        · subst hqp
          simp only [Function.update_same] at hq
          injection hq with h2
          exact h2.symm
        · simp only [Function.update_noteq hqp] at hq
          exact hgot q d hq
      · intro q pr f hq
        by_cases hqp : q = p
        · subst hqp
          simp only [Function.update_same] at hq
          exact ProcState.noConfusion hq
        · simp only [Function.update_noteq hqp] at hq
          exact hfin q pr f hq
    | some pr0 =>
      obtain ⟨e, ks⟩ := pr0
      by_cases hlt : env.nowOf p < e
      · have hstep : concStep env st p
            = { st with procs := Function.update st.procs p (.finished (some (e, ks)) false) } := by
          simp [concStep, hp, hc, hlt]
        rw [hstep]
        have hco : coherentPair env (e, ks) := by
          rcases hcache (e, ks) hc with heq | hco
          · exfalso
            injection heq with he hk
            have := hexp p
            rw [he] at hlt
            omega
          · exact hco
        refine ⟨hcache, ?_, ?_⟩
        · intro q d hq
          by_cases hqp : q = p
          · subst hqp
            simp only [Function.update_same] at hq
            exact ProcState.noConfusion hq
          · simp only [Function.update_noteq hqp] at hq
            exact hgot q d hq
        · intro q pr f hq
          by_cases hqp : q = p
          · subst hqp
            simp only [Function.update_same] at hq
            injection hq with h1 h2
            injection h1 with h3
            exact h3 ▸ hco
          · simp only [Function.update_noteq hqp] at hq
            exact hfin q pr f hq
      · have hstep : concStep env st p
            = { st with procs := Function.update st.procs p (.gotFetch (env.fetchOf p)) } := by
          simp [concStep, hp, hc, hlt]
        rw [hstep]
        refine ⟨hcache, ?_, ?_⟩
        · intro q d hq
          by_cases hqp : q = p
          · subst hqp
            simp only [Function.update_same] at hq
            injection hq with h2
            exact h2.symm
          · simp only [Function.update_noteq hqp] at hq
            exact hgot q d hq
        · intro q pr f hq
          by_cases hqp : q = p
          · subst hqp
            simp only [Function.update_same] at hq
            exact ProcState.noConfusion hq
          · simp only [Function.update_noteq hqp] at hq
            exact hfin q pr f hq
  | gotFetch d =>
    have hd : d = env.fetchOf p := hgot p d hp
    subst hd
    by_cases hok : (env.fetchOf p).ok
    · have hstep : concStep env st p
          = { cache := some (env.nowOf p + (env.fetchOf p).ttl, (env.fetchOf p).keys),
              procs := Function.update st.procs p
                (.finished (some (env.nowOf p + (env.fetchOf p).ttl, (env.fetchOf p).keys))
                  true) } := by
        simp [concStep, hp, hok]
      rw [hstep]
      have hco : coherentPair env (env.nowOf p + (env.fetchOf p).ttl, (env.fetchOf p).keys) :=
        ⟨p, hok, rfl, rfl⟩
      refine ⟨?_, ?_, ?_⟩
      · intro pr hpr
        injection hpr with h1
        exact Or.inr (h1 ▸ hco)
      · intro q d' hq
        by_cases hqp : q = p
        · subst hqp
          simp only [Function.update_same] at hq
          exact ProcState.noConfusion hq
        · simp only [Function.update_noteq hqp] at hq
          exact hgot q d' hq
      · intro q pr f hq
        by_cases hqp : q = p
        · subst hqp
          simp only [Function.update_same] at hq
          injection hq with h1 h2
          injection h1 with h3
          exact h3 ▸ hco
        · simp only [Function.update_noteq hqp] at hq
          exact hfin q pr f hq
    · have hstep : concStep env st p
          = { st with procs := Function.update st.procs p (.finished none true) } := by
        simp [concStep, hp, hok]
      rw [hstep]
      refine ⟨hcache, ?_, ?_⟩
      · intro q d' hq
        by_cases hqp : q = p
        · subst hqp
          simp only [Function.update_same] at hq
          exact ProcState.noConfusion hq
        · simp only [Function.update_noteq hqp] at hq
          exact hgot q d' hq
      · intro q pr f hq
        by_cases hqp : q = p
        · subst hqp
          simp only [Function.update_same] at hq
          injection hq with h1 h2
          exact Option.noConfusion h1
        · simp only [Function.update_noteq hqp] at hq
          exact hfin q pr f hq
  | finished r f =>
    have hstep : concStep env st p = st := by
      simp [concStep, hp]
    rw [hstep]
    exact ⟨hcache, hgot, hfin⟩

/-- Any schedule preserves the coherence invariant. -/
theorem concInv_run {N : Nat} (env : ConcEnv N) (e0 : Int) (ks0 : List SigningKey)
    (hexp : ∀ p, e0 ≤ env.nowOf p) (sched : List (Fin N)) :
    ∀ st, concInv env e0 ks0 st → concInv env e0 ks0 (concRun env sched st) := by
  induction sched with
  | nil => intro st h; exact h
  | cons p rest ih =>
    intro st h
    exact ih (concStep env st p) (concInv_step env e0 ks0 hexp st p h)

/-- C9: statement-level interleaving of `N` concurrent `_get_public_keys`
calls racing past an expired cache entry (the write
`_certs_cache[url] = (expires, keys)` stores one complete tuple, as in the
source): under any schedule at most `N` network fetches are issued, every
call that returns does so with an `(expires, keys)` pair produced by one
single fetch, and the cache only ever holds the original entry or such a
single-fetch pair — never keys of one fetch with the expiry of another. -/
theorem c9_concurrent_refresh_safe {N : Nat} (env : ConcEnv N) (e0 : Int)
    (ks0 : List SigningKey) (sched : List (Fin N))
    (hexp : ∀ p, e0 ≤ env.nowOf p) :
    fetchEvents env sched ⟨some (e0, ks0), fun _ => .idle⟩ ≤ N
    ∧ (∀ p pr f,
        (concRun env sched ⟨some (e0, ks0), fun _ => .idle⟩).procs p
          = .finished (some pr) f → coherentPair env pr)
    ∧ (∀ pr, (concRun env sched ⟨some (e0, ks0), fun _ => .idle⟩).cache = some pr →
        pr = (e0, ks0) ∨ coherentPair env pr) := by
  have hinv0 : concInv env e0 ks0 ⟨some (e0, ks0), fun _ => .idle⟩ := by
    refine ⟨?_, ?_, ?_⟩
    · intro pr hpr
      injection hpr with h1
      exact Or.inl h1.symm
    · intro q d hq
      exact ProcState.noConfusion hq
    · intro q pr f hq
      exact ProcState.noConfusion hq
  have hinv := concInv_run env e0 ks0 hexp sched _ hinv0
  refine ⟨?_, hinv.2.2, hinv.1⟩
  have hrun := fetchedCount_run env sched ⟨some (e0, ks0), fun _ => .idle⟩
  have h0 : fetchedCount (⟨some (e0, ks0), fun _ => .idle⟩ : ConcState N) = 0 := by
    simp [fetchedCount, hasFetched]
  have hle := fetchedCount_le (concRun env sched ⟨some (e0, ks0), fun _ => .idle⟩)
  omega

/-- Witness for C9: two processes, both observing the entry `(5, [1])`
expired at time 10, scheduled one after the other. -/
theorem c9_concurrent_refresh_safe_witness :
    fetchEvents (⟨fun _ => 10, fun _ => ⟨true, [3], 60⟩⟩ : ConcEnv 2) [0, 1]
        ⟨some (5, [1]), fun _ => .idle⟩ ≤ 2
    ∧ (∀ p pr f,
        (concRun (⟨fun _ => 10, fun _ => ⟨true, [3], 60⟩⟩ : ConcEnv 2) [0, 1]
            ⟨some (5, [1]), fun _ => .idle⟩).procs p = .finished (some pr) f →
        coherentPair (⟨fun _ => 10, fun _ => ⟨true, [3], 60⟩⟩ : ConcEnv 2) pr)
    ∧ (∀ pr,
        (concRun (⟨fun _ => 10, fun _ => ⟨true, [3], 60⟩⟩ : ConcEnv 2) [0, 1]
            ⟨some (5, [1]), fun _ => .idle⟩).cache = some pr →
        pr = (5, [1])
          ∨ coherentPair (⟨fun _ => 10, fun _ => ⟨true, [3], 60⟩⟩ : ConcEnv 2) pr) :=
  c9_concurrent_refresh_safe (⟨fun _ => 10, fun _ => ⟨true, [3], 60⟩⟩ : ConcEnv 2)
    5 [1] [0, 1] (fun p => by show (5 : Int) ≤ 10; decide)
